import Mathlib

/-!
# Verification of the `vacay` PTO accrual simulator

Shallow embedding of the accrual-and-affordability simulation in
`src/main.rs` of the `vacay` repository (the pure core of `main`,
lines 99–222), together with theorems settling the specification's
claims about it.

Modelling decisions:

* A `chrono::NaiveDate` is embedded as a `Nat` counting days since
  1970-01-01 (`succ_opt` becomes `(· + 1)`; comparison is `Nat`
  comparison).  `weekday d = (d + 3) % 7` with the convention
  0 = Monday, …, 5 = Saturday, 6 = Sunday; the offset 3 makes the
  embedding agree with the real calendar (1970-01-01 was a Thursday).
  `fromYMD` converts a Gregorian calendar date (year ≥ 1970) to this
  day count by the standard civil-calendar algorithm, so concrete
  dates appearing in the claims can be written as in the spec.
* The `f32` PTO balance and accrual rate are embedded as exact
  rationals `ℚ`.  Every concrete value occurring in the claims is a
  small integer, where `f32` arithmetic is exact.
* `Vec<NaiveDate>` holiday storage becomes `List Nat`; membership is
  `List.contains`, matching `Vec::contains`.
* `sort_unstable` with the derived `Ord` on `Vacation`
  (lexicographic on `(start, end, name)`, `None < Some`, strings
  byte-lexicographic) is embedded as `List.mergeSort` with the
  decidable total preorder `vacLe`.
* The table row pushed for each vacation keeps the source fields,
  with the `"✓"` / `"✗"` status string kept verbatim.
-/

namespace Vacay

/-- Weekday of a date: 0 = Monday, …, 5 = Saturday, 6 = Sunday.
1970-01-01 (day 0) was a Thursday, hence the offset 3. -/
def weekday (d : Nat) : Nat := (d + 3) % 7

/-- Convert a Gregorian date (year ≥ 1970) to days since 1970-01-01,
by the standard days-from-civil algorithm. -/
def fromYMD (y m d : Nat) : Nat :=
  let y' := if m ≤ 2 then y - 1 else y
  let era := y' / 400
  let yoe := y' % 400
  let mp := if 2 < m then m - 3 else m + 9
  let doy := (153 * mp + 2) / 5 + d - 1
  let doe := yoe * 365 + yoe / 4 - yoe / 100 + doy
  era * 146097 + doe - 719468

/-- The `struct Vacation` of the source (`end` is a Lean keyword,
hence the field name `end_`). -/
structure Vacation where
  start : Nat
  end_ : Nat
  name : Option String
  deriving DecidableEq

/-- One row of the result table (`struct VacationRow`); `status` is
`"✓"` when the vacation was affordable and `"✗"` otherwise, as in the
source. -/
structure VacationRow where
  name : String
  start : Nat
  end_ : Nat
  days : Nat
  hours : Int
  status : String
  deriving DecidableEq

/-- The mutable simulation state of the loop in `main`: the running
PTO balance `pto_balance` and the accrual cursor `current_date`. -/
structure SimState where
  balance : ℚ
  cursor : Nat
  deriving DecidableEq

/-- Byte/codepoint-lexicographic comparison of character lists,
embedding Rust's derived `Ord` on `String`. -/
def charListLe : List Char → List Char → Bool
  | [], _ => true
  | _ :: _, [] => false
  | a :: as, b :: bs => if a < b then true else if b < a then false else charListLe as bs

/-- Rust's derived `Ord` on `Option<String>`: `None` sorts first. -/
def nameLe : Option String → Option String → Bool
  | none, _ => true
  | some _, none => false
  | some a, some b => charListLe a.data b.data

/-- The derived `Ord` on `struct Vacation`: lexicographic on
`(start, end, name)`. -/
def vacLe (a b : Vacation) : Bool :=
  if a.start = b.start then
    if a.end_ = b.end_ then nameLe a.name b.name
    else decide (a.end_ ≤ b.end_)
  else decide (a.start ≤ b.start)

/-- Lines 122–128 and 213–216: advance a date day by day until it is
a Sunday (the date itself counts if it already is one). -/
def advanceToSunday (d : Nat) : Nat :=
  if weekday d = 6 then d else advanceToSunday (d + 1)
  termination_by (10 - d % 7) % 7
  decreasing_by simp [weekday] at *; omega

/-- Lines 136–149: count the chargeable days from `date` up to `endD`
inclusive, skipping Saturdays, Sundays and holidays. -/
def ptoDaysLoop (holidays : List Nat) (endD : Nat) (date : Nat) : Nat :=
  if h : date ≤ endD then
    (if weekday date ≠ 5 ∧ weekday date ≠ 6 then
      if holidays.contains date then 0 else 1
    else 0) + ptoDaysLoop holidays endD (date + 1)
  else 0
  termination_by endD + 1 - date
  decreasing_by omega

/-- The `pto_days_needed` value computed for a vacation. -/
def ptoDays (holidays : List Nat) (v : Vacation) : Nat :=
  ptoDaysLoop holidays v.end_ v.start

/-- The `pto_hours_needed` value computed for a vacation:
`(pto_days_needed * 8) as f32`. -/
def ptoHours (holidays : List Nat) (v : Vacation) : ℚ :=
  (ptoDays holidays v * 8 : Nat)

/-- Lines 156–171: while the cursor is strictly before `start`, add
one weekly accrual and advance the cursor by 7 days.  Returns the new
balance and cursor. -/
def accrueUntil (rate : ℚ) (start : Nat) (balance : ℚ) (cursor : Nat) : ℚ × Nat :=
  if h : cursor < start then accrueUntil rate start (balance + rate) (cursor + 7)
  else (balance, cursor)
  termination_by start - cursor
  decreasing_by omega

/-- Lines 196–210: walk every date of `[date, endD]` and add one
weekly accrual for each Sunday.  The holiday set plays no part. -/
def accrueDuring (rate : ℚ) (endD : Nat) (balance : ℚ) (date : Nat) : ℚ :=
  if h : date ≤ endD then
    accrueDuring rate endD (if weekday date = 6 then balance + rate else balance) (date + 1)
  else balance
  termination_by endD + 1 - date
  decreasing_by omega

/-- The body of the per-vacation loop, lines 133–217: cost evaluation,
pre-vacation accrual, affordability check and deduction, row
construction, during-vacation accrual, cursor resynchronisation. -/
def processVacation (holidays : List Nat) (rate : ℚ) (s : SimState) (v : Vacation) :
    SimState × VacationRow :=
  let ptoDaysNeeded := ptoDays holidays v
  let ptoHoursNeeded := ptoHours holidays v
  let acc := accrueUntil rate v.start s.balance s.cursor
  let name := v.name.getD "Unnamed"
  let bal2 := if ptoHoursNeeded ≤ acc.1 then acc.1 - ptoHoursNeeded else acc.1
  let status := if ptoHoursNeeded ≤ acc.1 then "✓" else "✗"
  let row : VacationRow :=
    ⟨name, v.start, v.end_, ptoDaysNeeded, (ptoDaysNeeded * 8 : Nat), status⟩
  let bal3 := accrueDuring rate v.end_ bal2 v.start
  (⟨bal3, advanceToSunday (v.end_ + 1)⟩, row)

/-- The chronological simulation loop: one row per vacation, final
balance at the end. -/
def simLoop (holidays : List Nat) (rate : ℚ) : SimState → List Vacation → List VacationRow × ℚ
  | s, [] => ([], s.balance)
  | s, v :: vs =>
    let p := processVacation holidays rate s v
    let rest := simLoop holidays rate p.1 vs
    (p.2 :: rest.1, rest.2)

/-- Lines 99–108: sort the schedule, keep the vacations whose end is
strictly after `today`. -/
def futureSorted (today : Nat) (vacations : List Vacation) : List Vacation :=
  (vacations.mergeSort vacLe).filter fun v => today < v.end_

/-- The pure core of `main`: sort and filter the schedule, place the
cursor on the first Sunday strictly after `today`, then run the
simulation loop from the starting bank. -/
def simulate (today : Nat) (bank : ℚ) (rate : ℚ) (holidays : List Nat)
    (vacations : List Vacation) : List VacationRow × ℚ :=
  simLoop holidays rate ⟨bank, advanceToSunday (today + 1)⟩ (futureSorted today vacations)

/-! ## Specification-side counting functions and closed forms

The loops above are defined by well-founded recursion, mirroring the
source's `while` loops.  The following closed forms let every claim
be evaluated on concrete inputs and relate the loops to the counting
language used by the spec ("the number of calendar dates d in
[start, end] such that …"). -/

/-- Number of weekly accrual events the pre-vacation stepper fires
when the cursor starts at `cursor` and the vacation starts at
`start`: one per 7-day step strictly before `start`. -/
def preCount (cursor start : Nat) : Nat := (start - cursor + 6) / 7

/-- Number of calendar dates in `[s, e]` that are Sundays. -/
def sundaysCount (s e : Nat) : Nat :=
  ((Finset.Icc s e).filter fun d => weekday d = 6).card

/-- Number of calendar dates in `[s, e]` that are neither Saturday
nor Sunday nor a member of the holiday list. -/
def chargeableCount (holidays : List Nat) (s e : Nat) : Nat :=
  ((Finset.Icc s e).filter fun d => weekday d ≠ 5 ∧ weekday d ≠ 6 ∧ d ∉ holidays).card

example : fromYMD 2024 1 1 = 19723 := by decide
example : weekday (fromYMD 2024 1 1) = 0 := by decide
example : weekday (fromYMD 2024 1 7) = 6 := by decide

theorem advanceToSunday_eq (d : Nat) : advanceToSunday d = d + (10 - d % 7) % 7 := by
  induction d using advanceToSunday.induct with
  | case1 d h =>
    rw [advanceToSunday, if_pos h]
    simp only [weekday] at h
    omega
  | case2 d h ih =>
    rw [advanceToSunday, if_neg h, ih]
    simp only [weekday] at h
    omega

theorem filter_Icc_card_succ (p : Nat → Prop) [DecidablePred p] (s e : Nat) (h : s ≤ e) :
    ((Finset.Icc s e).filter p).card
      = (if p s then 1 else 0) + ((Finset.Icc (s + 1) e).filter p).card := by
  have h1 : Finset.Icc s e = insert s (Finset.Icc (s + 1) e) := by
    rw [Nat.Icc_succ_left, Finset.Ioc_insert_left h]
  have h2 : s ∉ (Finset.Icc (s + 1) e).filter p := by
    simp only [Finset.mem_filter, Finset.mem_Icc]
    omega
  rw [h1, Finset.filter_insert]
  by_cases hp : p s
  · rw [if_pos hp, if_pos hp, Finset.card_insert_of_not_mem h2]
    omega
  · rw [if_neg hp, if_neg hp]
    omega

theorem filter_Icc_card_empty (p : Nat → Prop) [DecidablePred p] (s e : Nat) (h : ¬ s ≤ e) :
    ((Finset.Icc s e).filter p).card = 0 := by
  rw [Finset.Icc_eq_empty (by omega)]
  simp

theorem accrueUntil_eq (rate : ℚ) (start : Nat) (balance : ℚ) (cursor : Nat) :
    accrueUntil rate start balance cursor
      = (balance + preCount cursor start * rate, cursor + 7 * preCount cursor start) := by
  induction balance, cursor using accrueUntil.induct rate start with
  | case1 balance cursor h ih =>
    rw [accrueUntil, dif_pos h, ih]
    have hpc : preCount cursor start = preCount (cursor + 7) start + 1 := by
      simp only [preCount]; omega
    rw [hpc, Prod.mk.injEq]
    constructor
    · push_cast; ring
    · omega
  | case2 balance cursor h =>
    rw [accrueUntil, dif_neg h]
    have hpc : preCount cursor start = 0 := by
      simp only [preCount]; omega
    rw [hpc]
    simp

theorem accrueDuring_eq (rate : ℚ) (endD : Nat) (balance : ℚ) (date : Nat) :
    accrueDuring rate endD balance date = balance + sundaysCount date endD * rate := by
  induction balance, date using accrueDuring.induct rate endD with
  | case1 balance date h ih =>
    simp only [dite_eq_ite] at ih
    rw [accrueDuring, dif_pos h, ih]
    have hc := filter_Icc_card_succ (fun d => weekday d = 6) date endD h
    simp only [sundaysCount, hc]
    by_cases hw : weekday date = 6
    · rw [if_pos hw, if_pos hw]
      push_cast; ring
    · rw [if_neg hw, if_neg hw]
      push_cast; ring
  | case2 balance date h =>
    rw [accrueDuring, dif_neg h]
    simp only [sundaysCount, filter_Icc_card_empty _ _ _ h]
    push_cast; ring

theorem ptoDaysLoop_eq (holidays : List Nat) (endD date : Nat) :
    ptoDaysLoop holidays endD date = chargeableCount holidays date endD := by
  induction date using ptoDaysLoop.induct holidays endD with
  | case1 date h ih =>
    rw [ptoDaysLoop, dif_pos h, ih]
    have hc := filter_Icc_card_succ
      (fun d => weekday d ≠ 5 ∧ weekday d ≠ 6 ∧ d ∉ holidays) date endD h
    simp only [chargeableCount] at hc ⊢
    rw [hc]
    have hcm : (holidays.contains date) = decide (date ∈ holidays) :=
      List.elem_eq_mem _ _
    by_cases hw : weekday date ≠ 5 ∧ weekday date ≠ 6
    · by_cases hh : date ∈ holidays
      · simp [hw, hh, hcm]
      · simp [hw, hh, hcm]
    · have hw3 : ¬ (weekday date ≠ 5 ∧ weekday date ≠ 6 ∧ date ∉ holidays) := by tauto
      rw [if_neg hw, if_neg hw3]
  | case2 date h =>
    rw [ptoDaysLoop, dif_neg h]
    simp only [chargeableCount, filter_Icc_card_empty _ _ _ h]

/-! ## Properties of the sort comparator -/

theorem charListLe_total (a b : List Char) :
    charListLe a b = true ∨ charListLe b a = true := by
  induction a generalizing b with
  | nil => left; rfl
  | cons x xs ih =>
    cases b with
    | nil => right; rfl
    | cons y ys =>
      by_cases h1 : x < y
      · left; simp [charListLe, h1]
      · by_cases h2 : y < x
        · right; simp [charListLe, h2]
        · rcases ih ys with h | h
          · left; simp [charListLe, h1, h2, h]
          · right; simp [charListLe, h1, h2, h]

theorem charListLe_trans {a b c : List Char} (h1 : charListLe a b = true)
    (h2 : charListLe b c = true) : charListLe a c = true := by
  induction a generalizing b c with
  | nil => rfl
  | cons x xs ih =>
    cases b with
    | nil => simp [charListLe] at h1
    | cons y ys =>
      cases c with
      | nil => simp [charListLe] at h2
      | cons z zs =>
        simp only [charListLe] at h1 h2 ⊢
        by_cases hxy : x < y
        · by_cases hyz : y < z
          · simp [lt_trans hxy hyz]
          · by_cases hzy : z < y
            · simp [hyz, hzy] at h2
            · have hyzeq : y = z := le_antisymm (not_lt.1 hzy) (not_lt.1 hyz)
              subst hyzeq
              simp [hxy]
        · by_cases hyx : y < x
          · simp [hxy, hyx] at h1
          · have hxyeq : x = y := le_antisymm (not_lt.1 hyx) (not_lt.1 hxy)
            subst hxyeq
            simp only [if_neg hxy, if_neg hyx] at h1
            by_cases hxz : x < z
            · simp [hxz]
            · by_cases hzx : z < x
              · simp [hxz, hzx] at h2
              · simp only [if_neg hxz, if_neg hzx]
                exact ih h1 (by simpa [hxz, hzx] using h2)

theorem nameLe_total (a b : Option String) : nameLe a b = true ∨ nameLe b a = true := by
  cases a with
  | none => left; rfl
  | some x =>
    cases b with
    | none => right; rfl
    | some y => exact charListLe_total x.data y.data

theorem nameLe_trans {a b c : Option String} (h1 : nameLe a b = true)
    (h2 : nameLe b c = true) : nameLe a c = true := by
  cases a with
  | none => rfl
  | some x =>
    cases b with
    | none => simp [nameLe] at h1
    | some y =>
      cases c with
      | none => simp [nameLe] at h2
      | some z => exact charListLe_trans h1 h2

theorem vacLe_total (a b : Vacation) : (vacLe a b || vacLe b a) = true := by
  simp only [vacLe]
  by_cases h1 : a.start = b.start
  · by_cases h2 : a.end_ = b.end_
    · rcases nameLe_total a.name b.name with h | h <;>
        simp only [if_pos h1, if_pos h2, if_pos h1.symm, if_pos h2.symm, h,
          Bool.true_or, Bool.or_true]
    · simp only [if_pos h1, if_pos h1.symm, if_neg h2, if_neg (Ne.symm h2)]
      rcases Nat.le_total a.end_ b.end_ with h | h <;> simp [h]
  · simp only [if_neg h1, if_neg (Ne.symm h1)]
    rcases Nat.le_total a.start b.start with h | h <;> simp [h]

theorem vacLe_trans (a b c : Vacation) (h1 : vacLe a b = true) (h2 : vacLe b c = true) :
    vacLe a c = true := by
  simp only [vacLe] at h1 h2 ⊢
  by_cases hab : a.start = b.start <;> by_cases hbc : b.start = c.start
  · simp only [if_pos hab, if_pos hbc] at h1 h2
    simp only [if_pos (hab.trans hbc)]
    by_cases hab2 : a.end_ = b.end_ <;> by_cases hbc2 : b.end_ = c.end_
    · simp only [if_pos hab2, if_pos hbc2] at h1 h2
      simp only [if_pos (hab2.trans hbc2)]
      exact nameLe_trans h1 h2
    · simp only [if_pos hab2, if_neg hbc2, decide_eq_true_eq] at h1 h2
      simp only [hab2, if_neg hbc2, decide_eq_true_eq]
      exact h2
    · simp only [if_neg hab2, if_pos hbc2, decide_eq_true_eq] at h1 h2
      simp only [← hbc2, if_neg hab2, decide_eq_true_eq]
      exact h1
    · simp only [if_neg hab2, if_neg hbc2, decide_eq_true_eq] at h1 h2
      by_cases hac2 : a.end_ = c.end_
      · exact absurd (le_antisymm h1 (le_trans h2 (le_of_eq hac2.symm))) hab2
      · simp only [if_neg hac2, decide_eq_true_eq]
        omega
  · simp only [if_pos hab, if_neg hbc, decide_eq_true_eq] at h1 h2
    simp only [hab, if_neg hbc, decide_eq_true_eq]
    exact h2
  · simp only [if_neg hab, if_pos hbc, decide_eq_true_eq] at h1 h2
    simp only [← hbc, if_neg hab, decide_eq_true_eq]
    exact h1
  · simp only [if_neg hab, if_neg hbc, decide_eq_true_eq] at h1 h2
    by_cases hac : a.start = c.start
    · exact absurd (le_antisymm h1 (le_trans h2 (le_of_eq hac.symm))) hab
    · simp only [if_neg hac, decide_eq_true_eq]
      omega

theorem vacLe_lex {a b : Vacation} (h : vacLe a b = true) :
    a.start < b.start ∨ (a.start = b.start ∧ a.end_ ≤ b.end_) := by
  simp only [vacLe] at h
  by_cases h1 : a.start = b.start
  · by_cases h2 : a.end_ = b.end_
    · right; exact ⟨h1, le_of_eq h2⟩
    · simp only [if_pos h1, if_neg h2, decide_eq_true_eq] at h
      right; exact ⟨h1, h⟩
  · simp only [if_neg h1, decide_eq_true_eq] at h
    left; omega

/-! ## Structure of the simulation loop -/

theorem simLoop_fst_map (holidays : List Nat) (rate : ℚ) (s : SimState) (vs : List Vacation) :
    (simLoop holidays rate s vs).1.map (fun r => (r.start, r.end_))
      = vs.map (fun v => (v.start, v.end_)) := by
  induction vs generalizing s with
  | nil => rfl
  | cons v vs ih => simp [simLoop, ih, processVacation]

theorem simLoop_fst_length (holidays : List Nat) (rate : ℚ) (s : SimState)
    (vs : List Vacation) : (simLoop holidays rate s vs).1.length = vs.length := by
  induction vs generalizing s with
  | nil => rfl
  | cons v vs ih => simp [simLoop, ih]

/-! ## The claims -/

/-- Claim C3: for every vacation with `start ≤ end` and every holiday
set, `chargeableDays` equals the number of calendar dates `d` in
`[start, end]` that are neither Saturday nor Sunday nor a member of
the holiday set, and the chargeable hours charged against the balance
(the row's `hours` figure and the `pto_hours_needed` value compared
with and subtracted from the balance) equal `chargeableDays × 8`. -/
theorem c3_chargeable_days (holidays : List Nat) (v : Vacation) (_h : v.start ≤ v.end_) :
    ptoDays holidays v
      = ((Finset.Icc v.start v.end_).filter
          fun d => weekday d ≠ 5 ∧ weekday d ≠ 6 ∧ d ∉ holidays).card ∧
    ∀ (rate : ℚ) (s : SimState),
      (processVacation holidays rate s v).2.days = ptoDays holidays v ∧
      (processVacation holidays rate s v).2.hours = (ptoDays holidays v : Int) * 8 ∧
      ptoHours holidays v = (ptoDays holidays v : ℚ) * 8 := by
  refine ⟨by rw [ptoDays, ptoDaysLoop_eq]; rfl, fun rate s => ⟨rfl, ?_, ?_⟩⟩
  · show ((ptoDays holidays v * 8 : Nat) : Int) = (ptoDays holidays v : Int) * 8
    push_cast
    ring
  · show ((ptoDays holidays v * 8 : Nat) : ℚ) = (ptoDays holidays v : ℚ) * 8
    push_cast
    ring

/-- Claim C3, witness: the Mon–Fri vacation 2024-01-15 to 2024-01-19
with the empty holiday set. -/
theorem c3_witness :
    ptoDays [] ⟨19737, 19741, none⟩
      = ((Finset.Icc 19737 19741).filter
          fun d => weekday d ≠ 5 ∧ weekday d ≠ 6 ∧ d ∉ ([] : List Nat)).card :=
  (c3_chargeable_days [] ⟨19737, 19741, none⟩ (by decide)).1

/-- Claim C5: for every vacation processed by the loop, with `b₁` the
balance at the affordability check (after the pre-vacation accrual):
if `b₁ ≥ chargeableHours` the vacation is marked `"✓"` and exactly
`chargeableHours` is subtracted before the during-vacation accrual;
otherwise it is marked `"✗"` and the balance is left unchanged by the
deduction step; in either case the loop continues with the remaining
vacations from the updated state. -/
theorem c5_affordability (holidays : List Nat) (rate : ℚ) (s : SimState) (v : Vacation)
    (rest : List Vacation) :
    ((processVacation holidays rate s v).2.status
        = if ptoHours holidays v ≤ (accrueUntil rate v.start s.balance s.cursor).1
          then "✓" else "✗") ∧
    ((processVacation holidays rate s v).1.balance
        = accrueDuring rate v.end_
            (if ptoHours holidays v ≤ (accrueUntil rate v.start s.balance s.cursor).1
             then (accrueUntil rate v.start s.balance s.cursor).1 - ptoHours holidays v
             else (accrueUntil rate v.start s.balance s.cursor).1)
            v.start) ∧
    simLoop holidays rate s (v :: rest)
      = ((processVacation holidays rate s v).2
            :: (simLoop holidays rate (processVacation holidays rate s v).1 rest).1,
         (simLoop holidays rate (processVacation holidays rate s v).1 rest).2) :=
  ⟨rfl, rfl, rfl⟩

/-- Claim C6: the balance update of one vacation step is exactly the
pre-vacation accruals plus the in-vacation Sunday accruals, minus the
chargeable hours when and only when the vacation is marked
affordable. -/
theorem c6_balance_equation (holidays : List Nat) (rate : ℚ) (s : SimState) (v : Vacation) :
    ((processVacation holidays rate s v).2.status = "✓"
        ↔ ptoHours holidays v ≤ s.balance + (preCount s.cursor v.start : ℚ) * rate) ∧
    (processVacation holidays rate s v).1.balance
      = s.balance + ((preCount s.cursor v.start + sundaysCount v.start v.end_ : Nat) : ℚ) * rate
        - (if (processVacation holidays rate s v).2.status = "✓"
           then ptoHours holidays v else 0) := by
  simp only [processVacation, accrueUntil_eq, accrueDuring_eq]
  by_cases hc : ptoHours holidays v ≤ s.balance + (preCount s.cursor v.start : ℚ) * rate
  · simp only [if_pos hc]
    refine ⟨by simp [hc], ?_⟩
    push_cast
    ring
  · simp only [if_neg hc]
    refine ⟨by simp [hc], ?_⟩
    rw [if_neg (by decide : ¬("✗" : String) = "✓")]
    push_cast
    ring

/-- Claim C7: the accrual cursor is always the next strictly-later
Sunday relative to its reference date: the initial cursor and every
post-vacation reset land on the earliest Sunday strictly after the
reference date (7 days later when the reference is itself a Sunday),
and the pre-vacation stepper advances the cursor by exactly 7 days
per accrual event, so a Sunday cursor stays on Sundays. -/
theorem c7_cursor (d c start : Nat) (rate bal : ℚ) (bank : ℚ) (holidays : List Nat)
    (s : SimState) (v : Vacation) (vacations : List Vacation) :
    weekday (advanceToSunday (d + 1)) = 6 ∧
    d < advanceToSunday (d + 1) ∧
    (∀ t, d < t → weekday t = 6 → advanceToSunday (d + 1) ≤ t) ∧
    (weekday d = 6 → advanceToSunday (d + 1) = d + 7) ∧
    (accrueUntil rate start bal c).2 = c + 7 * preCount c start ∧
    (weekday c = 6 → weekday (accrueUntil rate start bal c).2 = 6) ∧
    (processVacation holidays rate s v).1.cursor = advanceToSunday (v.end_ + 1) ∧
    simulate d bank rate holidays vacations
      = simLoop holidays rate ⟨bank, advanceToSunday (d + 1)⟩ (futureSorted d vacations) := by
  refine ⟨?_, ?_, ?_, ?_, ?_, ?_, rfl, rfl⟩
  · rw [advanceToSunday_eq]
    simp only [weekday]
    omega
  · rw [advanceToSunday_eq]
    omega
  · intro t h1 h2
    rw [advanceToSunday_eq]
    simp only [weekday] at h2
    omega
  · intro h
    simp only [weekday] at h
    rw [advanceToSunday_eq]
    omega
  · rw [accrueUntil_eq]
  · intro h
    rw [accrueUntil_eq]
    simp only [weekday] at h ⊢
    omega

/-- Claim C7, witness: today = 2024-01-01 (Monday, day 19723), whose
next Sunday is 2024-01-07 (day 19729); a Sunday reference yields the
Sunday 7 days later; minimality at the Sunday 2024-01-14 (19736); and
a Sunday cursor stays a Sunday through the pre-vacation stepper. -/
theorem c7_witness :
    weekday (advanceToSunday (19723 + 1)) = 6 ∧
    advanceToSunday (19729 + 1) = 19729 + 7 ∧
    advanceToSunday (19723 + 1) ≤ 19736 ∧
    weekday (accrueUntil 16 19737 40 19729).2 = 6 :=
  ⟨(c7_cursor 19723 19729 19737 16 40 40 [] ⟨40, 0⟩ ⟨0, 0, none⟩ []).1,
   (c7_cursor 19729 19729 19737 16 40 40 [] ⟨40, 0⟩ ⟨0, 0, none⟩ []).2.2.2.1 (by decide),
   (c7_cursor 19723 19729 19737 16 40 40 [] ⟨40, 0⟩ ⟨0, 0, none⟩ []).2.2.1 19736
     (by decide) (by decide),
   (c7_cursor 19723 19729 19737 16 40 40 [] ⟨40, 0⟩ ⟨0, 0, none⟩ []).2.2.2.2.2.1 (by decide)⟩

/-- Claim C8: when no vacation ends strictly after `today`, the
simulation terminates normally with an empty outcome list and the
unmodified bank as final balance, with no accrual applied. -/
theorem c8_empty_schedule (today : Nat) (bank rate : ℚ) (holidays : List Nat)
    (vacations : List Vacation) (h : ∀ v ∈ vacations, ¬ today < v.end_) :
    simulate today bank rate holidays vacations = ([], bank) := by
  unfold simulate futureSorted
  have hf : (vacations.mergeSort vacLe).filter (fun v => today < v.end_) = [] := by
    rw [List.filter_eq_nil_iff]
    intro v hv
    simpa using h v (List.mem_mergeSort.1 hv)
  rw [hf]
  rfl

/-- Claim C8, witness: a schedule whose only vacation ended before
`today`. -/
theorem c8_witness : simulate 5 40 16 [] [⟨0, 0, none⟩] = ([], 40) :=
  c8_empty_schedule 5 40 16 [] [⟨0, 0, none⟩] (by decide)

/-- Claim C9: the during-vacation pass adds `weeklyRate` once for
every calendar date in `[start, end]` that is a Sunday, for every
holiday set: the count of credited Sundays is the count of all
Sundays in the range, which includes the Sundays that are members of
the holiday set (second conjunct) — holiday membership never
suppresses an in-vacation Sunday accrual. -/
theorem c9_sunday_accrual (holidays : List Nat) (rate bal : ℚ) (s e : Nat) :
    accrueDuring rate e bal s
      = bal + (((Finset.Icc s e).filter fun d => weekday d = 6).card : ℚ) * rate ∧
    ((Finset.Icc s e).filter fun d => weekday d = 6).card
      = ((Finset.Icc s e).filter fun d => weekday d = 6 ∧ d ∈ holidays).card
        + ((Finset.Icc s e).filter fun d => weekday d = 6 ∧ d ∉ holidays).card := by
  constructor
  · rw [accrueDuring_eq]
    rfl
  · rw [← Finset.filter_filter, ← Finset.filter_filter]
    exact (Finset.filter_card_add_filter_neg_card_eq_card (fun d => d ∈ holidays)).symm

/-- Claim C4: no past vacation (end ≤ today) ever appears in the
outcome list; the list has exactly one row per future vacation, in
the order of the filtered, sorted input, ascending by
`(start, end)`. -/
theorem c4_outcome_list (today : Nat) (bank rate : ℚ) (holidays : List Nat)
    (vacations : List Vacation) :
    (∀ r ∈ (simulate today bank rate holidays vacations).1, today < r.end_) ∧
    (simulate today bank rate holidays vacations).1.map (fun r => (r.start, r.end_))
      = (futureSorted today vacations).map (fun v => (v.start, v.end_)) ∧
    (simulate today bank rate holidays vacations).1.length
      = (vacations.filter fun v => today < v.end_).length ∧
    (simulate today bank rate holidays vacations).1.Pairwise
      (fun a b => a.start < b.start ∨ (a.start = b.start ∧ a.end_ ≤ b.end_)) := by
  have hmap : (simulate today bank rate holidays vacations).1.map (fun r => (r.start, r.end_))
      = (futureSorted today vacations).map (fun v => (v.start, v.end_)) :=
    simLoop_fst_map holidays rate _ _
  have hsorted : (futureSorted today vacations).Pairwise (fun a b => vacLe a b = true) :=
    (List.sorted_mergeSort vacLe_trans vacLe_total vacations).filter _
  refine ⟨?_, hmap, ?_, ?_⟩
  · intro r hr
    have hmem : (r.start, r.end_) ∈ (futureSorted today vacations).map
        (fun v => (v.start, v.end_)) := by
      rw [← hmap]
      exact List.mem_map_of_mem _ hr
    obtain ⟨v, hv, heq⟩ := List.mem_map.1 hmem
    have hlt : today < v.end_ := by
      have := List.of_mem_filter hv
      simpa using this
    have hend : v.end_ = r.end_ := congrArg Prod.snd heq
    omega
  · rw [simulate, simLoop_fst_length, futureSorted]
    exact ((List.mergeSort_perm vacations vacLe).filter _).length_eq
  · have h1 : ((futureSorted today vacations).map (fun v => (v.start, v.end_))).Pairwise
        (fun p q => p.1 < q.1 ∨ (p.1 = q.1 ∧ p.2 ≤ q.2)) := by
      rw [List.pairwise_map]
      exact hsorted.imp fun h => vacLe_lex h
    rw [← hmap, List.pairwise_map] at h1
    exact h1

/-- Claim C2 counterexample: the vacation consisting of the single
Saturday 1970-01-03 (day 2) has `chargeableDays = 0`, yet with a
negative starting balance (bank = −1, rate = 0) the simulation marks
it `"✗"` (unaffordable) because `−1 ≥ 0` fails — refuting "for every
starting balance and accrual rate … marks the vacation
affordable". -/
theorem c2_counterexample :
    weekday 2 = 5 ∧
    (simulate 0 (-1) 0 [] [⟨2, 2, none⟩]).1
      = [⟨"Unnamed", 2, 2, 0, 0, "✗"⟩] := by
  refine ⟨by decide, ?_⟩
  simp only [simulate, futureSorted, List.mergeSort_singleton]
  norm_num [List.filter]
  simp only [simLoop, processVacation, ptoDays, ptoHours, ptoDaysLoop_eq,
    accrueUntil_eq, accrueDuring_eq, advanceToSunday_eq]
  norm_num [preCount]
  have h1 : chargeableCount [] 2 2 = 0 := by decide
  rw [h1]
  norm_num

/-- Claim C2, amended: for every vacation whose calendar days in
`[start, end]` are all Saturdays, Sundays, or members of the holiday
set, the simulation computes `chargeableDays = 0` and
`chargeableHours = 0`, and — provided the balance at the
affordability check is nonnegative — marks that vacation affordable,
deducting nothing from the balance. -/
theorem c2_amended (holidays : List Nat) (rate : ℚ) (s : SimState) (v : Vacation)
    (hall : ∀ d ∈ Finset.Icc v.start v.end_, weekday d = 5 ∨ weekday d = 6 ∨ d ∈ holidays)
    (hpos : 0 ≤ (accrueUntil rate v.start s.balance s.cursor).1) :
    (processVacation holidays rate s v).2.days = 0 ∧
    (processVacation holidays rate s v).2.hours = 0 ∧
    (processVacation holidays rate s v).2.status = "✓" ∧
    (processVacation holidays rate s v).1.balance
      = (accrueUntil rate v.start s.balance s.cursor).1
        + (sundaysCount v.start v.end_ : ℚ) * rate := by
  have hdays : ptoDays holidays v = 0 := by
    rw [ptoDays, ptoDaysLoop_eq, chargeableCount, Finset.card_eq_zero,
      Finset.filter_eq_empty_iff]
    intro d hd
    have := hall d hd
    tauto
  have hhours : ptoHours holidays v = 0 := by
    rw [ptoHours, hdays]
    norm_num
  refine ⟨?_, ?_, ?_, ?_⟩
  · simpa [processVacation] using hdays
  · simp [processVacation, hdays]
  · simp [processVacation, hhours, hpos]
  · simp [processVacation, hhours, hpos, accrueDuring_eq]

/-- Claim C2 (amended), witness: the Saturday–Sunday vacation
1970-01-03 to 1970-01-04 with a positive balance is marked
affordable. -/
theorem c2_witness : (processVacation [] 0 ⟨40, 0⟩ ⟨2, 3, none⟩).2.status = "✓" :=
  (c2_amended [] 0 ⟨40, 0⟩ ⟨2, 3, none⟩ (by decide)
    (by rw [accrueUntil_eq]; norm_num)).2.2.1

/-- Claim C1 counterexample: on the spec's end-to-end scenario
(today = 2024-01-01, bank = 40, rate = 16, no holidays, vacation
2024-01-15 to 2024-01-19) the final balance is not 16: two Sundays
(2024-01-07 and 2024-01-14) lie strictly between today and the
vacation start, not one, so the balance before the trip is 72, not
56, and the final balance is 32. -/
theorem c1_counterexample :
    (simulate (fromYMD 2024 1 1) 40 16 []
      [⟨fromYMD 2024 1 15, fromYMD 2024 1 19, some "Ski trip"⟩]).2 ≠ 16 := by
  simp only [simulate, futureSorted, List.mergeSort_singleton]
  norm_num [fromYMD, List.filter]
  simp only [simLoop, processVacation, ptoDays, ptoHours, ptoDaysLoop_eq,
    accrueUntil_eq, accrueDuring_eq, advanceToSunday_eq]
  norm_num [preCount]
  have h1 : chargeableCount [] 19737 19741 = 5 := by decide
  have h2 : sundaysCount 19737 19741 = 0 := by decide
  rw [h1, h2]
  norm_num

/-- Claim C1, amended: for today = 2024-01-01 (a Monday), bank = 40,
rate = 16, empty holiday set and the single vacation 2024-01-15 to
2024-01-19, the simulation accrues exactly two pre-vacation Sunday
credits (2024-01-07 and 2024-01-14), so the balance immediately
before the vacation is 72; it computes chargeableDays = 5 and
chargeableHours = 40, marks the vacation affordable, adds no
mid-vacation accrual (the vacation spans no Sunday), and returns a
final balance of 32. -/
theorem c1_amended :
    preCount (advanceToSunday (fromYMD 2024 1 1 + 1)) (fromYMD 2024 1 15) = 2 ∧
    (accrueUntil 16 (fromYMD 2024 1 15) 40 (advanceToSunday (fromYMD 2024 1 1 + 1))).1 = 72 ∧
    sundaysCount (fromYMD 2024 1 15) (fromYMD 2024 1 19) = 0 ∧
    simulate (fromYMD 2024 1 1) 40 16 []
        [⟨fromYMD 2024 1 15, fromYMD 2024 1 19, some "Ski trip"⟩]
      = ([⟨"Ski trip", fromYMD 2024 1 15, fromYMD 2024 1 19, 5, 40, "✓"⟩], 32) := by
  refine ⟨?_, ?_, by decide, ?_⟩
  · rw [advanceToSunday_eq]
    decide
  · rw [accrueUntil_eq, advanceToSunday_eq]
    norm_num [fromYMD, preCount]
  · simp only [simulate, futureSorted, List.mergeSort_singleton]
    norm_num [fromYMD, List.filter]
    simp only [simLoop, processVacation, ptoDays, ptoHours, ptoDaysLoop_eq,
      accrueUntil_eq, accrueDuring_eq, advanceToSunday_eq]
    norm_num [preCount]
    have h1 : chargeableCount [] 19737 19741 = 5 := by decide
    have h2 : sundaysCount 19737 19741 = 0 := by decide
    rw [h1, h2]
    norm_num

/-- Claim C10: with today = 2024-01-01, bank = 100, rate = 16, no
holidays, and the two overlapping future vacations 2024-01-05 to
2024-01-08 and 2024-01-07 to 2024-01-09 — both containing the single
Sunday 2024-01-07 of the union of the two ranges — every vacation is
affordable (16 chargeable hours each, 32 deducted in total), yet the
final balance is again 100 = 100 − 32 + 2·16: the one calendar
Sunday is credited once per vacation containing it, because each
during-vacation pass scans its own `[start, end]` range
independently. -/
theorem c10_overlapping_sunday :
    weekday (fromYMD 2024 1 7) = 6 ∧
    fromYMD 2024 1 5 ≤ fromYMD 2024 1 7 ∧ fromYMD 2024 1 7 ≤ fromYMD 2024 1 8 ∧
    fromYMD 2024 1 7 ≤ fromYMD 2024 1 9 ∧
    sundaysCount (fromYMD 2024 1 5) (fromYMD 2024 1 8) = 1 ∧
    sundaysCount (fromYMD 2024 1 7) (fromYMD 2024 1 9) = 1 ∧
    sundaysCount (fromYMD 2024 1 5) (fromYMD 2024 1 9) = 1 ∧
    simulate (fromYMD 2024 1 1) 100 16 []
        [⟨fromYMD 2024 1 5, fromYMD 2024 1 8, none⟩,
         ⟨fromYMD 2024 1 7, fromYMD 2024 1 9, none⟩]
      = ([⟨"Unnamed", fromYMD 2024 1 5, fromYMD 2024 1 8, 2, 16, "✓"⟩,
          ⟨"Unnamed", fromYMD 2024 1 7, fromYMD 2024 1 9, 2, 16, "✓"⟩], 100) := by
  refine ⟨by decide, by decide, by decide, by decide, by decide, by decide, by decide, ?_⟩
  have hms : ([⟨fromYMD 2024 1 5, fromYMD 2024 1 8, none⟩,
      ⟨fromYMD 2024 1 7, fromYMD 2024 1 9, none⟩] : List Vacation).mergeSort vacLe
      = [⟨fromYMD 2024 1 5, fromYMD 2024 1 8, none⟩,
         ⟨fromYMD 2024 1 7, fromYMD 2024 1 9, none⟩] :=
    List.mergeSort_of_sorted (by decide)
  simp only [simulate, futureSorted, hms]
  norm_num [fromYMD, List.filter]
  simp only [simLoop, processVacation, ptoDays, ptoHours, ptoDaysLoop_eq,
    accrueUntil_eq, accrueDuring_eq, advanceToSunday_eq]
  norm_num [preCount]
  have h1 : chargeableCount [] 19727 19730 = 2 := by decide
  have h2 : sundaysCount 19727 19730 = 1 := by decide
  have h3 : chargeableCount [] 19729 19731 = 2 := by decide
  have h4 : sundaysCount 19729 19731 = 1 := by decide
  rw [h1, h2, h3, h4]
  norm_num

end Vacay
